import Mathlib

/-!
# Verification of the collaborative-canvas server core

Shallow embedding of the server-side coordination engine of the
collaborative canvas repository:

* `src/server/drawing-state.js` — per-room History / Redo Stack store
  (`addOperation`, `undo`, `redo`, `canUndo`, `canRedo`, `clear`);
* `src/server/rooms.js` — member registry (`addUser`, `removeUser`,
  `getUsers`, `hasUser`);
* `src/server/server.js` — dispatch gateway (`isValidOperation`,
  `sanitizeRoomId`, the `JOIN_ROOM` / `DRAW` / disconnect handlers).

JS arrays become Lean lists in the same order: `push` appends at the
tail, `pop` removes the tail, `shift` removes the head.  JS `Map`s
(which iterate in insertion order) become association lists, with
`Map.set` on an existing key updating the entry in place.  JS numbers
are modelled as `Int` (the claims under study do not depend on
floating-point behaviour).  Methods that `throw` are modelled with
`Except`.
-/

namespace Canvas

/-- A raw 2D point as received on the wire.  A field is `some n` when it is
present and of JS type `number`, and `none` when it is absent or not a
number. -/
structure RawPoint where
  x : Option Int
  y : Option Int
deriving Repr, DecidableEq

/-- A raw drawing-operation payload (a duck-typed JS object).  Each field is
`none` when absent / of the wrong JS type (for `fromPt`/`toPt`: not an
object; for `tool`/`color`: not a string; for `lineWidth`: not a number).
The JS fields are `from` and `to`; `from` is a Lean keyword, so the Lean
fields are `fromPt` and `toPt`. -/
structure RawOp where
  fromPt : Option RawPoint
  toPt : Option RawPoint
  tool : Option String
  lineWidth : Option Int
  color : Option String
deriving Repr, DecidableEq

/-- `MAX_HISTORY_SIZE` from `drawing-state.js` line 8. -/
def MAX_HISTORY_SIZE : Nat := 10000

/-- The per-room value stored in `roomStates`:
`{ history: Array, redoStack: Array }`. -/
structure RoomState where
  history : List RawOp
  redoStack : List RawOp
deriving Repr, DecidableEq

/-- The state a fresh room receives in `_getRoomState`:
`{ history: [], redoStack: [] }`. -/
def initialRoomState : RoomState := ⟨[], []⟩

/-- `DrawingState.addOperation` (drawing-state.js lines 45–59), per room.
The guard `!operation || typeof operation !== 'object'` always passes for a
value representable as `RawOp` (any JS object); the non-object case is
handled at the dispatch layer (`handleDrawRoom` below).  Pushes the
operation, clears the redo stack, then shifts the oldest entry off when
the length exceeds `MAX_HISTORY_SIZE`. -/
def addOperation (st : RoomState) (operation : RawOp) : RoomState :=
  let h := st.history ++ [operation]
  let h := if h.length > MAX_HISTORY_SIZE then h.tail else h
  ⟨h, []⟩

/-- `DrawingState.undo` (drawing-state.js lines 66–76), per room: when the
history is non-empty, pop its tail and push it onto the redo stack. -/
def undo (st : RoomState) : RoomState :=
  match st.history.getLast? with
  | none => st
  | some lastOperation => ⟨st.history.dropLast, st.redoStack ++ [lastOperation]⟩

/-- `DrawingState.redo` (drawing-state.js lines 83–93), per room: when the
redo stack is non-empty, pop its tail and push it onto the history. -/
def redo (st : RoomState) : RoomState :=
  match st.redoStack.getLast? with
  | none => st
  | some nextOperation => ⟨st.history ++ [nextOperation], st.redoStack.dropLast⟩

/-- `DrawingState.canUndo` (drawing-state.js lines 100–103). -/
def canUndo (st : RoomState) : Bool :=
  decide (st.history.length > 0)

/-- `DrawingState.canRedo` (drawing-state.js lines 110–113). -/
def canRedo (st : RoomState) : Bool :=
  decide (st.redoStack.length > 0)

/-- `DrawingState.clear` (drawing-state.js lines 119–123). -/
def clear (_st : RoomState) : RoomState :=
  ⟨[], []⟩

/-- A sequence of `addOperation` calls on one room, oldest first. -/
def applyAppends (st : RoomState) (ops : List RawOp) : RoomState :=
  ops.foldl addOperation st

/-- The undo/redo commands of the store. -/
inductive HistCmd where
  | undoCmd : HistCmd
  | redoCmd : HistCmd
deriving Repr, DecidableEq

/-- Run a sequence of undo/redo commands on one room. -/
def applyHistCmds (st : RoomState) (cmds : List HistCmd) : RoomState :=
  cmds.foldl (fun s c => match c with
    | HistCmd.undoCmd => undo s
    | HistCmd.redoCmd => redo s) st

/-- The operations held by a room, as one sequence: the history followed by
the redo stack read from its top (most recently undone) downwards. -/
def combined (st : RoomState) : List RawOp :=
  st.history ++ st.redoStack.reverse

/-- A sample well-formed operation used by concrete witnesses. -/
def sampleOp : RawOp :=
  ⟨some ⟨some 0, some 0⟩, some ⟨some 1, some 1⟩, some "brush", some 3, some "#FF5733"⟩

end Canvas

namespace Canvas

theorem undo_combined (st : RoomState) : combined (undo st) = combined st := by
  rcases List.eq_nil_or_concat st.history with h0 | ⟨l, x, hx⟩
  · simp [undo, h0]
  · cases st with
    | mk hist redoStack =>
      simp only at hx
      subst hx
      simp [undo, combined, List.getLast?_concat]

theorem redo_combined (st : RoomState) : combined (redo st) = combined st := by
  rcases List.eq_nil_or_concat st.redoStack with h0 | ⟨l, x, hx⟩
  · simp [redo, h0]
  · cases st with
    | mk hist redoStack =>
      simp only at hx
      subst hx
      simp [redo, combined, List.getLast?_concat]

/-- **C1.** For every room state whose history is non-empty, an `undo`
followed immediately by a `redo` (no intervening append or clear) restores
the room state exactly: `redo (undo st) = st`, so both the History and the
Redo Stack return to their prior contents. -/
theorem redo_undo_roundtrip (st : RoomState) (h : st.history ≠ []) :
    redo (undo st) = st := by
  rcases List.eq_nil_or_concat st.history with h0 | ⟨l, x, hx⟩
  · exact absurd h0 h
  · cases st with
    | mk hist redoStack =>
      simp only at hx
      subst hx
      simp [undo, redo, List.getLast?_concat]

/-- Concrete witness for the round-trip law at a one-element history. -/
theorem redo_undo_roundtrip_witness :
    redo (undo ⟨[sampleOp], []⟩) = (⟨[sampleOp], []⟩ : RoomState) :=
  redo_undo_roundtrip ⟨[sampleOp], []⟩ (by decide)

end Canvas

namespace Canvas

theorem addOperation_history_length_le (st : RoomState) (op : RawOp)
    (h : st.history.length ≤ MAX_HISTORY_SIZE) :
    (addOperation st op).history.length ≤ MAX_HISTORY_SIZE := by
  simp only [addOperation]
  split
  · rename_i hgt
    simp only [List.length_tail, List.length_append, List.length_cons,
      List.length_nil]
    omega
  · rename_i hle
    simp only [gt_iff_lt, not_lt] at hle
    exact hle

theorem applyAppends_length_le (ops : List RawOp) :
    ∀ st : RoomState, st.history.length ≤ MAX_HISTORY_SIZE →
      (applyAppends st ops).history.length ≤ MAX_HISTORY_SIZE := by
  induction ops with
  | nil => intro st h; simpa [applyAppends] using h
  | cons op ops ih =>
    intro st h
    simpa [applyAppends, List.foldl_cons] using
      ih (addOperation st op) (addOperation_history_length_le st op h)

/-- **C2.** Along every sequence of `addOperation` calls starting from a
fresh room, the history length stays at most `MAX_HISTORY_SIZE` after every
call (the state after the i-th call is `applyAppends` of the first i
operations); whenever an append finds the history already at (or beyond)
the bound, the entry evicted is the oldest one — the head — so the result
is `tail ++ [op]`; and the redo stack produced by `addOperation` does not
depend on the history, hence eviction (which is driven by the history
alone) never modifies the Redo Stack. -/
theorem history_bounded_fifo :
    (∀ ops : List RawOp,
      (applyAppends initialRoomState ops).history.length ≤ MAX_HISTORY_SIZE) ∧
    (∀ (st : RoomState) (op : RawOp), MAX_HISTORY_SIZE ≤ st.history.length →
      (addOperation st op).history = st.history.tail ++ [op]) ∧
    (∀ (st st' : RoomState) (op : RawOp), st.redoStack = st'.redoStack →
      (addOperation st op).redoStack = (addOperation st' op).redoStack) := by
  refine ⟨?_, ?_, ?_⟩
  · intro ops
    exact applyAppends_length_le ops initialRoomState (by simp [initialRoomState])
  · intro st op hfull
    have hgt : (st.history ++ [op]).length > MAX_HISTORY_SIZE := by
      simp only [List.length_append, List.length_cons, List.length_nil]
      omega
    have hne : st.history ≠ [] := by
      intro h0
      rw [h0] at hfull
      simp [MAX_HISTORY_SIZE] at hfull
    obtain ⟨a, t, hat⟩ := List.exists_cons_of_ne_nil hne
    rw [hat] at hgt
    simp only [addOperation, hat, if_pos hgt]
    rfl
  · intro st st' op _
    rfl

/-- Concrete witness for C2: one append on a fresh room stays under the
bound, and an append onto a full history of 10000 copies of `sampleOp`
evicts the head. -/
theorem history_bounded_fifo_witness :
    (applyAppends initialRoomState [sampleOp]).history.length ≤ MAX_HISTORY_SIZE ∧
    (addOperation ⟨List.replicate MAX_HISTORY_SIZE sampleOp, []⟩ sampleOp).history =
      (List.replicate MAX_HISTORY_SIZE sampleOp).tail ++ [sampleOp] :=
  ⟨history_bounded_fifo.1 [sampleOp],
   history_bounded_fifo.2.1 ⟨List.replicate MAX_HISTORY_SIZE sampleOp, []⟩ sampleOp
     (by simp)⟩

/-- **C3.** Every `addOperation` call (the store's append; it succeeds on
every object payload) leaves the Redo Stack empty, whatever the redo
stack held before. -/
theorem addOperation_clears_redoStack (st : RoomState) (op : RawOp) :
    (addOperation st op).redoStack = [] :=
  rfl

/-- **C7.** `clear` always yields empty History and Redo Stack — the exact
state of a fresh room, so no record of the clear (nor of anything else)
remains — with `canUndo` and `canRedo` both false, and both a `redo` and an
`undo` immediately after the clear are no-ops. -/
theorem clear_resets (st : RoomState) :
    clear st = initialRoomState ∧
    canUndo (clear st) = false ∧ canRedo (clear st) = false ∧
    redo (clear st) = clear st ∧ undo (clear st) = clear st := by
  exact ⟨rfl, rfl, rfl, rfl, rfl⟩

/-- **C10.** A single `undo`, a single `redo`, and hence every sequence of
undo/redo commands, preserve the combined sequence
`history ++ reverse redoStack`: the two operations only move one element
between the two structures, so no operation is lost, duplicated or
reordered. -/
theorem undo_redo_preserve_combined (st : RoomState) (cmds : List HistCmd) :
    combined (undo st) = combined st ∧
    combined (redo st) = combined st ∧
    combined (applyHistCmds st cmds) = combined st := by
  refine ⟨undo_combined st, redo_combined st, ?_⟩
  induction cmds generalizing st with
  | nil => rfl
  | cons c cmds ih =>
    have h1 : applyHistCmds st (c :: cmds) =
        applyHistCmds (match c with
          | HistCmd.undoCmd => undo st
          | HistCmd.redoCmd => redo st) cmds := rfl
    rw [h1]
    cases c
    · rw [ih (undo st), undo_combined]
    · rw [ih (redo st), redo_combined]

end Canvas

namespace Canvas

/-- `isValidOperation` from server.js lines 28–58, mirroring the JS
early-return chain.  A `none` argument models a payload that is absent,
`null`, or not a JS object (`!op || typeof op !== 'object'`); inside a
field, `none` models the field being absent, falsy where the code tests
falsiness, or of the wrong JS type. -/
def isValidOperation (data : Option RawOp) : Bool :=
  match data with
  | none => false
  | some op =>
    match op.fromPt, op.toPt with
    | none, _ => false
    | _, none => false
    | some f, some t =>
      if f.x.isNone || f.y.isNone then false
      else if t.x.isNone || t.y.isNone then false
      else match op.tool with
        | none => false
        | some tl =>
          if tl ≠ "brush" ∧ tl ≠ "eraser" then false
          else match op.lineWidth with
            | none => false
            | some w =>
              if w < 1 ∨ w > 100 then false
              else if tl = "brush" then
                match op.color with
                | none => false
                | some c => if c = "" then false else true
              else true

/-- Spec-side shape condition: both coordinates present and numeric
("missing/non-numeric coordinates" rejected). -/
def hasNumericCoords (op : RawOp) : Bool :=
  match op.fromPt, op.toPt with
  | some f, some t => f.x.isSome && f.y.isSome && t.x.isSome && t.y.isSome
  | _, _ => false

/-- Spec-side shape condition: the tool tag is `brush` or `eraser`
("unknown tool tag" rejected). -/
def knownTool (op : RawOp) : Bool :=
  decide (op.tool = some "brush") || decide (op.tool = some "eraser")

/-- Spec-side shape condition: the line width is a number in `[1, 100]`
("line width outside its bounded range" rejected). -/
def lineWidthInRange (op : RawOp) : Bool :=
  match op.lineWidth with
  | some w => decide (1 ≤ w) && decide (w ≤ 100)
  | none => false

/-- Spec-side shape condition: a brush operation carries a color ("a brush
operation missing its color" rejected; a JS empty string is falsy, so an
empty color string counts as missing). -/
def brushHasColor (op : RawOp) : Bool :=
  if op.tool = some "brush" then
    match op.color with
    | some c => decide (c ≠ "")
    | none => false
  else true

/-- The spec's description of a well-formed Operation, assembled from the
four named shape conditions; written from the spec's words, to be compared
with the code's `isValidOperation`. -/
def specShapeOK (data : Option RawOp) : Bool :=
  match data with
  | none => false
  | some op => hasNumericCoords op && knownTool op && lineWidthInRange op && brushHasColor op

/-- The state effect of the `DRAW` handler (server.js lines 133–160) on the
current room: the payload is validated with `isValidOperation`, and only a
valid payload reaches `addOperation`; an invalid one is dropped. -/
def handleDrawRoom (st : RoomState) (data : Option RawOp) : RoomState :=
  match data with
  | none => st
  | some op => if isValidOperation (some op) then addOperation st op else st

end Canvas

namespace Canvas

/-- **C4.** The system's append path validates the operation's shape:
the code's validator accepts exactly the spec's well-formed Operations
(numeric `from`/`to` coordinates, tool tag `brush` or `eraser`, line width
in `[1,100]`, color present for brush); a payload of malformed shape is
rejected — the `InvalidOperation` outcome — with the room state (History
and Redo Stack) left completely unchanged; and a well-formed payload is
appended via `addOperation`. -/
theorem draw_validation (st : RoomState) (data : Option RawOp) :
    (isValidOperation data = specShapeOK data) ∧
    (isValidOperation data = false → handleDrawRoom st data = st) ∧
    (∀ op : RawOp, data = some op → isValidOperation data = true →
      handleDrawRoom st data = addOperation st op) := by
  refine ⟨?_, ?_, ?_⟩
  · match data with
    | none => rfl
    | some op =>
      obtain ⟨fp, tp, tl, lw, co⟩ := op
      match fp, tp with
      | none, tp2 =>
        cases tp2 <;>
          simp [isValidOperation, specShapeOK, hasNumericCoords, knownTool,
            lineWidthInRange, brushHasColor]
      | some f, none => rfl
      | some f, some t =>
        obtain ⟨fx, fy⟩ := f
        obtain ⟨tx, ty⟩ := t
        match fx, fy, tx, ty with
        | none, _, _, _ => rfl
        | some _, none, _, _ => rfl
        | some _, some _, none, _ => rfl
        | some _, some _, some _, none => rfl
        | some a, some b, some c, some d =>
          match tl with
          | none => rfl
          | some tool =>
            by_cases hb : tool = "brush"
            · subst hb
              match lw with
              | none =>
                simp [isValidOperation, specShapeOK, hasNumericCoords,
                  knownTool, lineWidthInRange, brushHasColor]
              | some w =>
                by_cases hw : w < 1 ∨ w > 100
                · simp [isValidOperation, specShapeOK, hasNumericCoords,
                    knownTool, lineWidthInRange, brushHasColor, hw]
                  omega
                · match co with
                  | none =>
                    simp [isValidOperation, specShapeOK, hasNumericCoords,
                      knownTool, lineWidthInRange, brushHasColor, hw]
                  | some cs =>
                    by_cases hc : cs = ""
                    · simp [isValidOperation, specShapeOK, hasNumericCoords,
                        knownTool, lineWidthInRange, brushHasColor, hw, hc]
                    · simp [isValidOperation, specShapeOK, hasNumericCoords,
                        knownTool, lineWidthInRange, brushHasColor, hw, hc]
                      omega
            · by_cases he : tool = "eraser"
              · subst he
                match lw with
                | none =>
                  simp [isValidOperation, specShapeOK, hasNumericCoords,
                    knownTool, lineWidthInRange, brushHasColor]
                | some w =>
                  by_cases hw : w < 1 ∨ w > 100
                  · simp [isValidOperation, specShapeOK, hasNumericCoords,
                      knownTool, lineWidthInRange, brushHasColor, hw]
                    omega
                  · simp [isValidOperation, specShapeOK, hasNumericCoords,
                      knownTool, lineWidthInRange, brushHasColor, hw]
                    omega
              · simp [isValidOperation, specShapeOK, hasNumericCoords,
                  knownTool, lineWidthInRange, brushHasColor, hb, he]
  · intro hfalse
    match data with
    | none => rfl
    | some op => simp [handleDrawRoom, hfalse]
  · intro op hop htrue
    subst hop
    simp [handleDrawRoom, htrue]

/-- Concrete witness for C4: a payload with `lineWidth = 500` is rejected
and leaves a non-trivial room state untouched, and `sampleOp` is appended. -/
theorem draw_validation_witness :
    handleDrawRoom ⟨[sampleOp], [sampleOp]⟩
      (some ⟨some ⟨some 0, some 0⟩, some ⟨some 1, some 1⟩,
        some "brush", some 500, some "#FF5733"⟩) = ⟨[sampleOp], [sampleOp]⟩ ∧
    handleDrawRoom ⟨[], []⟩ (some sampleOp) = addOperation ⟨[], []⟩ sampleOp :=
  ⟨(draw_validation ⟨[sampleOp], [sampleOp]⟩ _).2.1 (by decide),
   (draw_validation ⟨[], []⟩ (some sampleOp)).2.2 sampleOp rfl (by decide)⟩

end Canvas

namespace Canvas

/-- Insertion-ordered association-list lookup, modelling `Map.get` /
`Map.has` on a JS `Map` (whose keys are unique and iterate in insertion
order). -/
def alookup {α : Type} (k : String) : List (String × α) → Option α
  | [] => none
  | (k', v) :: rest => if k' = k then some v else alookup k rest

/-- `Map.set` on a key already present: update the entry in place, keeping
its position. -/
def setRoom {α : Type} (rooms : List (String × α)) (roomId : String) (room : α) :
    List (String × α) :=
  rooms.map (fun p => if p.1 = roomId then (p.1, room) else p)

/-- `USER_COLORS` (rooms.js lines 7–12). -/
def USER_COLORS : List String := [
  "#FF5733", "#33FF57", "#3357FF", "#FF33A1", "#A133FF",
  "#33FFF6", "#F6FF33", "#FF8C33", "#8C33FF", "#33FF8C",
  "#FF6B6B", "#4ECDC4", "#45B7D1", "#FFA07A", "#98D8C8",
  "#F7DC6F", "#BB8FCE", "#85C1E2", "#F8B739", "#52B788"]

/-- One room's member map `Map<userId, {color}>`: userId paired with the
assigned color, in insertion order. -/
abbrev Room := List (String × String)

/-- The module-level `rooms` map of `rooms.js` (line 4). -/
structure Registry where
  rooms : List (String × Room)
deriving Repr, DecidableEq

/-- `RoomManager._getRoom` (rooms.js lines 20–29): throws on a falsy or
non-string roomId (the empty string being the only falsy string); creates
an empty member map for an unknown room; returns the (possibly extended)
registry together with the room's member map. -/
def _getRoom (reg : Registry) (roomId : String) : Except String (Registry × Room) :=
  if roomId = "" then Except.error "Invalid roomId"
  else
    match alookup roomId reg.rooms with
    | some room => Except.ok (reg, room)
    | none => Except.ok (⟨reg.rooms ++ [(roomId, [])]⟩, [])

/-- `RoomManager.getUsers` (rooms.js lines 75–82): `Array.from` over the
room's entries, each mapped to `{id, color}`. -/
def getUsers (reg : Registry) (roomId : String) :
    Except String (Registry × List (String × String)) :=
  match _getRoom reg roomId with
  | Except.error e => Except.error e
  | Except.ok (reg', room) => Except.ok (reg', room.map (fun p => (p.1, p.2)))

/-- `RoomManager.addUser` (rooms.js lines 37–53): throws on a falsy userId;
returns the existing color when the user is already present; otherwise
assigns `USER_COLORS[room.size % USER_COLORS.length]` and inserts the user
at the tail.  Both branches return `this.getUsers(roomId)` as the member
snapshot, exactly as the source does. -/
def addUser (reg : Registry) (roomId userId : String) :
    Except String (Registry × String × List (String × String)) :=
  if userId = "" then Except.error "Invalid userId"
  else
    match _getRoom reg roomId with
    | Except.error e => Except.error e
    | Except.ok (reg1, room) =>
      match alookup userId room with
      | some color =>
        match getUsers reg1 roomId with
        | Except.error e => Except.error e
        | Except.ok (reg2, users) => Except.ok (reg2, color, users)
      | none =>
        let color := USER_COLORS.getD (room.length % USER_COLORS.length) ""
        let room' := room ++ [(userId, color)]
        let reg2 := Registry.mk (setRoom reg1.rooms roomId room')
        match getUsers reg2 roomId with
        | Except.error e => Except.error e
        | Except.ok (reg3, users) => Except.ok (reg3, color, users)

/-- `RoomManager.removeUser` (rooms.js lines 60–68): deletes the user from
the room's map, then deletes the room itself when it has become empty. -/
def removeUser (reg : Registry) (roomId userId : String) : Except String Registry :=
  match _getRoom reg roomId with
  | Except.error e => Except.error e
  | Except.ok (reg1, room) =>
    let room' := room.filter (fun p => decide (p.1 ≠ userId))
    if room'.length = 0 then
      Except.ok ⟨(setRoom reg1.rooms roomId room').filter (fun p => decide (p.1 ≠ roomId))⟩
    else
      Except.ok ⟨setRoom reg1.rooms roomId room'⟩

/-- `RoomManager.hasUser` (rooms.js lines 100–103): read-only membership
test (it does not go through `_getRoom`, so it creates nothing). -/
def hasUser (reg : Registry) (roomId userId : String) : Bool :=
  match alookup roomId reg.rooms with
  | none => false
  | some room => (alookup userId room).isSome

end Canvas

namespace Canvas

/-- Counterexample to C5 as stated: calling `getUsers` on the room "r",
unknown to the empty registry, returns the empty member sequence but
extends the registry with an empty entry for "r" — the registry state
does change. -/
theorem getUsers_creates_room_cex :
    getUsers ⟨[]⟩ "r" = Except.ok (⟨[("r", [])]⟩, []) ∧
    (Registry.mk [("r", [])] ≠ Registry.mk []) :=
  ⟨rfl, by decide⟩

/-- **C5 (amended).** `getUsers` returns the empty member sequence for
every unknown (non-empty) roomId, but it is not read-only: through
`_getRoom` it appends an empty entry for the unknown room to the registry
(leaving every existing room untouched); on a known room it returns the
member snapshot with the registry unchanged. -/
theorem getUsers_unknown_room (reg : Registry) (roomId : String) (hr : roomId ≠ "") :
    (alookup roomId reg.rooms = none →
      getUsers reg roomId = Except.ok (⟨reg.rooms ++ [(roomId, [])]⟩, [])) ∧
    (∀ room : Room, alookup roomId reg.rooms = some room →
      getUsers reg roomId = Except.ok (reg, room)) := by
  constructor
  · intro hnone
    simp [getUsers, _getRoom, hr, hnone]
  · intro room hsome
    simp [getUsers, _getRoom, hr, hsome]

/-- Concrete witness for the amended C5 at an unknown and at a known
room. -/
theorem getUsers_unknown_room_witness :
    getUsers ⟨[("a", [("u", "#FF5733")])]⟩ "r" =
      Except.ok (⟨[("a", [("u", "#FF5733")]), ("r", [])]⟩, []) ∧
    getUsers ⟨[("a", [("u", "#FF5733")])]⟩ "a" =
      Except.ok (⟨[("a", [("u", "#FF5733")])]⟩, [("u", "#FF5733")]) :=
  ⟨(getUsers_unknown_room ⟨[("a", [("u", "#FF5733")])]⟩ "r" (by decide)).1 (by decide),
   (getUsers_unknown_room ⟨[("a", [("u", "#FF5733")])]⟩ "a" (by decide)).2
     [("u", "#FF5733")] (by decide)⟩

end Canvas

namespace Canvas

theorem alookup_append_of_none {α : Type} (k : String) {l1 : List (String × α)}
    (l2 : List (String × α)) (h : alookup k l1 = none) :
    alookup k (l1 ++ l2) = alookup k l2 := by
  induction l1 with
  | nil => rfl
  | cons p rest ih =>
    obtain ⟨k', v⟩ := p
    by_cases hk : k' = k
    · simp [alookup, hk] at h
    · simp only [alookup, hk, if_false, List.cons_append] at h ⊢
      exact ih h

theorem alookup_append_of_some {α : Type} (k : String) {l1 : List (String × α)}
    (l2 : List (String × α)) {v : α} (h : alookup k l1 = some v) :
    alookup k (l1 ++ l2) = some v := by
  induction l1 with
  | nil => simp [alookup] at h
  | cons p rest ih =>
    obtain ⟨k', w⟩ := p
    by_cases hk : k' = k
    · simp only [alookup, hk, if_true] at h
      simp [alookup, hk, h]
    · simp only [alookup, hk, if_false] at h
      simp only [List.cons_append, alookup, hk, if_false]
      exact ih h

theorem alookup_setRoom_self {α : Type} (rooms : List (String × α))
    (roomId : String) (room' : α) (h : (alookup roomId rooms).isSome) :
    alookup roomId (setRoom rooms roomId room') = some room' := by
  induction rooms with
  | nil => simp [alookup] at h
  | cons p rest ih =>
    obtain ⟨k', v⟩ := p
    by_cases hk : k' = roomId
    · subst hk
      simp only [setRoom, List.map_cons]
      simp only [if_true]
      simp [alookup]
    · simp only [setRoom, List.map_cons]
      rw [if_neg hk]
      simp only [alookup, hk, if_false] at h
      simp only [alookup, hk, if_false]
      exact ih h

theorem alookup_setRoom_ne {α : Type} (rooms : List (String × α))
    (k roomId : String) (room' : α) (h : k ≠ roomId) :
    alookup k (setRoom rooms roomId room') = alookup k rooms := by
  induction rooms with
  | nil => rfl
  | cons p rest ih =>
    obtain ⟨k', v⟩ := p
    simp only [setRoom, List.map_cons]
    by_cases hk : k' = roomId
    · subst hk
      have hkk : ¬ k' = k := fun he => h he.symm
      rw [if_pos rfl]
      simp only [alookup, hkk, if_false]
      exact ih
    · rw [if_neg hk]
      by_cases hkk : k' = k
      · simp [alookup, hkk]
      · simp only [alookup, hkk, if_false]
        exact ih

/-- `addUser` when the room exists and already contains the user: returns
the existing color and changes nothing. -/
theorem addUser_existing (reg : Registry) (roomId userId : String)
    (room : Room) (c : String) (hu : userId ≠ "") (hr : roomId ≠ "")
    (hroom : alookup roomId reg.rooms = some room)
    (hc : alookup userId room = some c) :
    addUser reg roomId userId = Except.ok (reg, c, room) := by
  simp [addUser, _getRoom, getUsers, hu, hr, hroom, hc]

/-- `addUser` when the room exists and the user is absent: assigns
`USER_COLORS[room.size % USER_COLORS.length]` and appends the member. -/
theorem addUser_fresh (reg : Registry) (roomId userId : String) (room : Room)
    (hu : userId ≠ "") (hr : roomId ≠ "")
    (hroom : alookup roomId reg.rooms = some room)
    (habs : alookup userId room = none) :
    addUser reg roomId userId =
      Except.ok
        (⟨setRoom reg.rooms roomId
            (room ++ [(userId, USER_COLORS.getD (room.length % USER_COLORS.length) "")])⟩,
          USER_COLORS.getD (room.length % USER_COLORS.length) "",
          room ++ [(userId, USER_COLORS.getD (room.length % USER_COLORS.length) "")]) := by
  have hset : alookup roomId
      (setRoom reg.rooms roomId
        (room ++ [(userId, USER_COLORS.getD (room.length % USER_COLORS.length) "")])) =
      some (room ++ [(userId, USER_COLORS.getD (room.length % USER_COLORS.length) "")]) :=
    alookup_setRoom_self reg.rooms roomId _ (by simp [hroom])
  simp only [List.getD, List.get?_eq_getElem?] at hset
  simp [addUser, _getRoom, getUsers, hu, hr, hroom, habs, hset, List.getD]

/-- `addUser` on a room unknown to the registry behaves like `addUser`
after `_getRoom` has appended the empty room entry. -/
theorem addUser_unknown_room (reg : Registry) (roomId userId : String)
    (hr : roomId ≠ "") (hroom : alookup roomId reg.rooms = none) :
    addUser reg roomId userId =
      addUser ⟨reg.rooms ++ [(roomId, [])]⟩ roomId userId := by
  have hnew : alookup roomId (reg.rooms ++ [(roomId, [])]) = some [] := by
    rw [alookup_append_of_none roomId _ hroom]
    simp [alookup]
  by_cases hu : userId = ""
  · simp [addUser, hu]
  · simp [addUser, _getRoom, hu, hr, hroom, hnew, alookup]

end Canvas

namespace Canvas

/-- Harness for the spec's join-order scenario: each member of `ms` joins
`roomId` in sequence via `addUser`, and the assigned colors are collected
in join order (a failing `addUser` contributes nothing; that branch is
never reached in the claims below). -/
def joinAll (reg : Registry) (roomId : String) : List String → Registry × List String
  | [] => (reg, [])
  | m :: ms =>
    match addUser reg roomId m with
    | Except.ok (reg', c, _) =>
      let rest := joinAll reg' roomId ms
      (rest.1, c :: rest.2)
    | Except.error _ => joinAll reg roomId ms

theorem joinAll_colors (roomId : String) (hr : roomId ≠ "") :
    ∀ (ms : List String) (reg : Registry) (room : Room),
      alookup roomId reg.rooms = some room →
      (∀ m ∈ ms, m ≠ "") →
      (∀ m ∈ ms, alookup m room = none) →
      ms.Nodup →
      (joinAll reg roomId ms).2 =
        (List.range ms.length).map
          (fun i => USER_COLORS.getD ((room.length + i) % USER_COLORS.length) "") := by
  intro ms
  induction ms with
  | nil =>
    intro reg room _ _ _ _
    rfl
  | cons m ms ih =>
    intro reg room hroom hne habs hnd
    have hm : m ≠ "" := hne m (by simp)
    have hmabs : alookup m room = none := habs m (by simp)
    have hfresh := addUser_fresh reg roomId m room hm hr hroom hmabs
    have hjoin : joinAll reg roomId (m :: ms) =
        ((joinAll
            ⟨setRoom reg.rooms roomId
              (room ++ [(m, USER_COLORS.getD (room.length % USER_COLORS.length) "")])⟩
            roomId ms).1,
          USER_COLORS.getD (room.length % USER_COLORS.length) "" ::
            (joinAll
              ⟨setRoom reg.rooms roomId
                (room ++ [(m, USER_COLORS.getD (room.length % USER_COLORS.length) "")])⟩
              roomId ms).2) := by
      simp [joinAll, hfresh]
    have hroom' : alookup roomId
        (setRoom reg.rooms roomId
          (room ++ [(m, USER_COLORS.getD (room.length % USER_COLORS.length) "")])) =
        some (room ++ [(m, USER_COLORS.getD (room.length % USER_COLORS.length) "")]) :=
      alookup_setRoom_self reg.rooms roomId _ (by simp [hroom])
    have hne' : ∀ m' ∈ ms, m' ≠ "" := fun m' hm' => hne m' (by simp [hm'])
    have hm_not_mem : m ∉ ms := (List.nodup_cons.mp hnd).1
    have habs' : ∀ m' ∈ ms,
        alookup m' (room ++ [(m, USER_COLORS.getD (room.length % USER_COLORS.length) "")]) =
          none := by
      intro m' hm'
      rw [alookup_append_of_none m' _ (habs m' (by simp [hm']))]
      have hmm : ¬ m = m' := fun he => hm_not_mem (he ▸ hm')
      simp [alookup, hmm]
    have hrec := ih ⟨setRoom reg.rooms roomId
        (room ++ [(m, USER_COLORS.getD (room.length % USER_COLORS.length) "")])⟩
      (room ++ [(m, USER_COLORS.getD (room.length % USER_COLORS.length) "")])
      hroom' hne' habs' (List.nodup_cons.mp hnd).2
    rw [hjoin]
    simp only [hrec, List.length_cons, List.length_append, List.length_nil,
      List.range_succ_eq_map, List.map_cons, List.map_map]
    congr 1
    apply List.map_congr_left
    intro a ha
    simp only [Function.comp_apply]
    have harith : room.length + 1 + a = room.length + (a + 1) := by omega
    rw [harith]

end Canvas

namespace Canvas

/-- **C6.** `addUser` is idempotent: joining a member already present in
the room returns that member's existing color with the registry — and so
the membership — unchanged.  A fresh join into a room of current size `n`
is assigned `USER_COLORS[n % USER_COLORS.length]`.  Consequently, for
members joining a fresh room in sequence, the member at 0-indexed position
`i` (1-indexed member `i+1`) receives `USER_COLORS[i % USER_COLORS.length]`
— the spec's `palette[(i-1) mod paletteSize]` for the 1-indexed member
`i`. -/
theorem join_idempotent_positional :
    (∀ (reg : Registry) (roomId userId : String) (room : Room) (c : String),
      roomId ≠ "" → userId ≠ "" →
      alookup roomId reg.rooms = some room →
      alookup userId room = some c →
      addUser reg roomId userId = Except.ok (reg, c, room)) ∧
    (∀ (reg : Registry) (roomId userId : String) (room : Room),
      roomId ≠ "" → userId ≠ "" →
      alookup roomId reg.rooms = some room →
      alookup userId room = none →
      addUser reg roomId userId =
        Except.ok
          (⟨setRoom reg.rooms roomId
              (room ++ [(userId, USER_COLORS.getD (room.length % USER_COLORS.length) "")])⟩,
            USER_COLORS.getD (room.length % USER_COLORS.length) "",
            room ++ [(userId, USER_COLORS.getD (room.length % USER_COLORS.length) "")])) ∧
    (∀ (roomId : String) (ms : List String),
      roomId ≠ "" → (∀ m ∈ ms, m ≠ "") → ms.Nodup →
      (joinAll ⟨[]⟩ roomId ms).2 =
        (List.range ms.length).map
          (fun i => USER_COLORS.getD (i % USER_COLORS.length) "")) := by
  refine ⟨?_, ?_, ?_⟩
  · intro reg roomId userId room c hr hu hroom hc
    exact addUser_existing reg roomId userId room c hu hr hroom hc
  · intro reg roomId userId room hr hu hroom habs
    exact addUser_fresh reg roomId userId room hu hr hroom habs
  · intro roomId ms hr hne hnd
    cases ms with
    | nil => rfl
    | cons m ms =>
      have hm : m ≠ "" := hne m (by simp)
      have haddm : addUser (⟨[]⟩ : Registry) roomId m =
          Except.ok
            (⟨setRoom [(roomId, [])] roomId
                [(m, USER_COLORS.getD (0 % USER_COLORS.length) "")]⟩,
              USER_COLORS.getD (0 % USER_COLORS.length) "",
              [(m, USER_COLORS.getD (0 % USER_COLORS.length) "")]) := by
        rw [addUser_unknown_room (⟨[]⟩ : Registry) roomId m hr rfl]
        have hf := addUser_fresh ⟨[(roomId, [])]⟩ roomId m [] hm hr
          (by simp [alookup]) rfl
        simpa using hf
      have hjoin : joinAll (⟨[]⟩ : Registry) roomId (m :: ms) =
          ((joinAll
              ⟨setRoom [(roomId, [])] roomId
                [(m, USER_COLORS.getD (0 % USER_COLORS.length) "")]⟩
              roomId ms).1,
            USER_COLORS.getD (0 % USER_COLORS.length) "" ::
              (joinAll
                ⟨setRoom [(roomId, [])] roomId
                  [(m, USER_COLORS.getD (0 % USER_COLORS.length) "")]⟩
                roomId ms).2) := by
        simp [joinAll, haddm]
      have hroomA : alookup roomId
          (setRoom [(roomId, [])] roomId
            [(m, USER_COLORS.getD (0 % USER_COLORS.length) "")]) =
          some [(m, USER_COLORS.getD (0 % USER_COLORS.length) "")] :=
        alookup_setRoom_self _ _ _ (by simp [alookup])
      have hne' : ∀ m' ∈ ms, m' ≠ "" := fun m' hm' => hne m' (by simp [hm'])
      have habs' : ∀ m' ∈ ms,
          alookup m' [(m, USER_COLORS.getD (0 % USER_COLORS.length) "")] = none := by
        intro m' hm'
        have hmm : ¬ m = m' :=
          fun he => (List.nodup_cons.mp hnd).1 (he ▸ hm')
        simp [alookup, hmm]
      have hrec := joinAll_colors roomId hr ms
        ⟨setRoom [(roomId, [])] roomId
          [(m, USER_COLORS.getD (0 % USER_COLORS.length) "")]⟩
        [(m, USER_COLORS.getD (0 % USER_COLORS.length) "")]
        hroomA hne' habs' (List.nodup_cons.mp hnd).2
      rw [hjoin]
      simp only [List.length_cons, List.length_nil, Nat.zero_mod] at hrec
      simp only [hrec, List.length_cons, List.length_nil,
        List.range_succ_eq_map, List.map_cons, List.map_map, Nat.zero_mod]
      congr 1
      apply List.map_congr_left
      intro a ha
      simp only [Function.comp_apply, Nat.succ_eq_add_one]
      rw [show 0 + 1 + a = a + 1 from by omega]

/-- Concrete witness for C6: rejoining an existing member keeps its color
and the registry; three members joining a fresh room receive the first
three palette colors. -/
theorem join_idempotent_positional_witness :
    addUser ⟨[("r", [("u", "#FF5733")])]⟩ "r" "u" =
      Except.ok (⟨[("r", [("u", "#FF5733")])]⟩, "#FF5733", [("u", "#FF5733")]) ∧
    (joinAll ⟨[]⟩ "r" ["u1", "u2", "u3"]).2 =
      (List.range (["u1", "u2", "u3"] : List String).length).map
        (fun i => USER_COLORS.getD (i % USER_COLORS.length) "") :=
  ⟨join_idempotent_positional.1 ⟨[("r", [("u", "#FF5733")])]⟩ "r" "u"
      [("u", "#FF5733")] "#FF5733" (by decide) (by decide) (by decide) (by decide),
   join_idempotent_positional.2.2 "r" ["u1", "u2", "u3"]
      (by decide) (by decide) (by decide)⟩

end Canvas

namespace Canvas

/-- The character class of the JS regex `[^a-zA-Z0-9-]` used by
`sanitizeRoomId`: ASCII letters, ASCII digits, and the hyphen survive. -/
def isRoomChar (c : Char) : Bool :=
  c.isAlphanum || c = '-'

/-- `sanitizeRoomId` (server.js lines 73–79).  A `none` argument models a
falsy or non-string roomId.  `replace(/[^a-zA-Z0-9-]/g, '')` keeps exactly
the `isRoomChar` characters, `substring(0, 50)` keeps the first 50 of
them, and `|| 'default-room'` replaces an empty result. -/
def sanitizeRoomId (roomId : Option String) : String :=
  match roomId with
  | none => "default-room"
  | some s =>
    if s = "" then "default-room"
    else
      let t := (s.data.filter isRoomChar).take 50
      if t = [] then "default-room" else String.mk t

/-- The spec's restriction on room identifiers: only alphanumeric
characters and hyphens, length at most 50. -/
def isValidCoreRoomId (s : String) : Bool :=
  decide (s.data.length ≤ 50) && s.data.all isRoomChar

/-- The module-level `roomStates` map of `drawing-state.js` (line 5). -/
structure DrawingStore where
  roomStates : List (String × RoomState)
deriving Repr, DecidableEq

/-- `DrawingState._getRoomState` (drawing-state.js lines 16–28): throws on
a falsy or non-string roomId; creates a fresh `{history: [], redoStack: []}`
for an unknown room; returns the (possibly extended) store together with
the room's state. -/
def _getRoomState (store : DrawingStore) (roomId : String) :
    Except String (DrawingStore × RoomState) :=
  if roomId = "" then Except.error "Invalid roomId"
  else
    match alookup roomId store.roomStates with
    | some st => Except.ok (store, st)
    | none => Except.ok (⟨store.roomStates ++ [(roomId, initialRoomState)]⟩, initialRoomState)

/-- Whether an `Except` computation succeeded (i.e. the JS call did not
throw). -/
def isOkE {ε α : Type} : Except ε α → Bool
  | Except.ok _ => true
  | Except.error _ => false

end Canvas

namespace Canvas

/-- Counterexample to C8 as stated: the roomId "a b" lies outside the
restricted set (it contains a space), yet both the Registry's `_getRoom`
and the History Store's `_getRoomState` accept it — they even create a
room under that identifier rather than rejecting it as a failure. -/
theorem core_accepts_unrestricted_roomId_cex :
    isValidCoreRoomId "a b" = false ∧
    _getRoom ⟨[]⟩ "a b" = Except.ok (⟨[("a b", [])]⟩, []) ∧
    _getRoomState ⟨[]⟩ "a b" =
      Except.ok (⟨[("a b", initialRoomState)]⟩, initialRoomState) :=
  ⟨by decide, rfl, rfl⟩

/-- **C8 (amended).** The sanitizer's output always satisfies the
restriction (only alphanumerics and hyphens, length at most 50), but the
core itself only rejects the empty (falsy / non-string) roomId: every
non-empty string — including ones outside the restricted set — is accepted
by both the Registry and the History Store, so the restriction holds only
because the dispatch layer routes every inbound roomId through the
sanitizer. -/
theorem sanitizer_restricts_core_rejects_only_empty (s : Option String)
    (roomId : String) (reg : Registry) (store : DrawingStore) :
    isValidCoreRoomId (sanitizeRoomId s) = true ∧
    (roomId ≠ "" →
      isOkE (_getRoom reg roomId) = true ∧
      isOkE (_getRoomState store roomId) = true) ∧
    isOkE (_getRoom reg "") = false ∧
    isOkE (_getRoomState store "") = false := by
  refine ⟨?_, ?_, by simp [_getRoom, isOkE], by simp [_getRoomState, isOkE]⟩
  · match s with
    | none => decide
    | some str =>
      by_cases h0 : str = ""
      · simp only [sanitizeRoomId, h0, if_true]
        decide
      · simp only [sanitizeRoomId, h0, if_false]
        by_cases ht : (str.data.filter isRoomChar).take 50 = []
        · simp only [ht, if_true]
          decide
        · simp only [ht, if_false]
          unfold isValidCoreRoomId
          rw [Bool.and_eq_true]
          refine ⟨?_, ?_⟩
          · exact decide_eq_true_eq.mpr
              (List.length_take_le 50 (str.data.filter isRoomChar))
          · refine List.all_eq_true.mpr ?_
            intro c hc
            exact List.of_mem_filter (List.mem_of_mem_take hc)
  · intro hr
    constructor
    · unfold _getRoom
      rw [if_neg hr]
      cases alookup roomId reg.rooms <;> rfl
    · unfold _getRoomState
      rw [if_neg hr]
      cases alookup roomId store.roomStates <;> rfl

/-- Concrete witness for the amended C8: the sanitizer cleans "a b!" to
"ab", which the core accepts, while the empty id is rejected. -/
theorem sanitizer_restricts_witness :
    isValidCoreRoomId (sanitizeRoomId (some "a b!")) = true ∧
    isOkE (_getRoom ⟨[]⟩ "ab") = true ∧
    isOkE (_getRoomState ⟨[]⟩ "ab") = true ∧
    isOkE (_getRoom ⟨[]⟩ "") = false :=
  ⟨(sanitizer_restricts_core_rejects_only_empty (some "a b!") "ab" ⟨[]⟩ ⟨[]⟩).1,
   ((sanitizer_restricts_core_rejects_only_empty (some "a b!") "ab" ⟨[]⟩ ⟨[]⟩).2.1
      (by decide)).1,
   ((sanitizer_restricts_core_rejects_only_empty (some "a b!") "ab" ⟨[]⟩ ⟨[]⟩).2.1
      (by decide)).2,
   (sanitizer_restricts_core_rejects_only_empty (some "a b!") "ab" ⟨[]⟩ ⟨[]⟩).2.2.1⟩

end Canvas

namespace Canvas

/-- Per-connection server state relevant to membership: the member
registry plus each socket's `currentRoom` variable (server.js line 86,
`null` until a join succeeds is modelled as `none`; sessions are keyed by
the socket id). -/
structure ServerState where
  reg : Registry
  sessions : List (String × Option String)
deriving Repr, DecidableEq

/-- The state of the process at startup: no rooms, no connections. -/
def initialServer : ServerState := ⟨⟨[]⟩, []⟩

/-- Assign a socket's `currentRoom` variable. -/
def setSession (sessions : List (String × Option String)) (sid : String)
    (room : Option String) : List (String × Option String) :=
  if (alookup sid sessions).isSome then
    sessions.map (fun p => if p.1 = sid then (p.1, room) else p)
  else sessions ++ [(sid, room)]

/-- The `JOIN_ROOM` handler (server.js lines 89–129), restricted to its
effect on the registry and the session: sanitize the room id, assign
`currentRoom`, then `RoomManager.addUser`.  When `addUser` throws, the
catch block leaves the registry unchanged, but `currentRoom` was already
assigned before the call — exactly as in the source.  The handler never
removes the socket from any previous room.  Outbound broadcasts carry no
state and are omitted. -/
def handleJoin (st : ServerState) (sid : String) (roomId : Option String) :
    ServerState :=
  let room := sanitizeRoomId roomId
  let sessions' := setSession st.sessions sid (some room)
  match addUser st.reg room sid with
  | Except.ok (reg', _, _) => ⟨reg', sessions'⟩
  | Except.error _ => ⟨st.reg, sessions'⟩

/-- The `disconnect` handler (server.js lines 256–273), restricted to the
registry and sessions: remove the user from its current room and drop the
session.  (The accompanying `DrawingState.deleteRoom` cleanup touches only
the drawing store, which carries no membership.) -/
def handleDisconnect (st : ServerState) (sid : String) : ServerState :=
  let sessions' := st.sessions.filter (fun p => decide (p.1 ≠ sid))
  match alookup sid st.sessions with
  | some (some r) =>
    match removeUser st.reg r sid with
    | Except.ok reg' => ⟨reg', sessions'⟩
    | Except.error _ => ⟨st.reg, sessions'⟩
  | _ => ⟨st.reg, sessions'⟩

/-- The membership-relevant inbound messages. -/
inductive InMsg where
  | joinRoom (sid : String) (roomId : Option String) : InMsg
  | disconnect (sid : String) : InMsg
deriving Repr, DecidableEq

/-- Dispatch one inbound message. -/
def stepServer (st : ServerState) (m : InMsg) : ServerState :=
  match m with
  | InMsg.joinRoom sid roomId => handleJoin st sid roomId
  | InMsg.disconnect sid => handleDisconnect st sid

/-- Process a sequence of inbound messages in order. -/
def runServer (st : ServerState) (ms : List InMsg) : ServerState :=
  ms.foldl stepServer st

/-- The rooms whose member map contains `userId`. -/
def roomsContaining (reg : Registry) (userId : String) : List String :=
  (reg.rooms.filter (fun p => (alookup userId p.2).isSome)).map Prod.fst

end Canvas

namespace Canvas

/-- Counterexample to C9 as stated: member "m" joins room "a" and then
room "b"; in the reachable state after these two messages, "m" is
registered in both rooms — membership in at most one room is violated, and
the second join left the stale registration behind. -/
theorem member_in_two_rooms_cex :
    roomsContaining
      (runServer initialServer
        [InMsg.joinRoom "m" (some "a"), InMsg.joinRoom "m" (some "b")]).reg
      "m" = ["a", "b"] ∧
    ¬ (roomsContaining
        (runServer initialServer
          [InMsg.joinRoom "m" (some "a"), InMsg.joinRoom "m" (some "b")]).reg
        "m").length ≤ 1 := by
  exact ⟨by decide, by decide⟩

end Canvas

namespace Canvas

theorem hasUser_intro (reg : Registry) (roomId userId : String) (room : Room)
    (h1 : alookup roomId reg.rooms = some room)
    (h2 : (alookup userId room).isSome = true) :
    hasUser reg roomId userId = true := by
  unfold hasUser
  rw [h1]
  exact h2

theorem hasUser_elim (reg : Registry) (roomId userId : String)
    (h : hasUser reg roomId userId = true) :
    ∃ room, alookup roomId reg.rooms = some room ∧
      (alookup userId room).isSome = true := by
  unfold hasUser at h
  rcases hroom : alookup roomId reg.rooms with _ | room
  · rw [hroom] at h
    exact absurd h (by simp)
  · rw [hroom] at h
    exact ⟨room, rfl, h⟩

/-- **C9 (amended).** Processing a join for a member currently registered
in a different room registers the member in the new room but leaves the
stale registration in the old one: after `handleJoin`, the member is
present in both rooms (the handler never removes the member from the
previous room).  Member-in-at-most-one-room therefore holds only along
traces in which no member joins a second room. -/
theorem join_keeps_stale_registration (st : ServerState) (m r1 r2 : String)
    (hm : m ≠ "") (h1 : hasUser st.reg r1 m = true) (h12 : r1 ≠ r2)
    (hr2 : sanitizeRoomId (some r2) = r2) :
    hasUser (handleJoin st m (some r2)).reg r1 m = true ∧
    hasUser (handleJoin st m (some r2)).reg r2 m = true := by
  have hr2ne : r2 ≠ "" := by
    intro h0
    rw [h0] at hr2
    simp [sanitizeRoomId] at hr2
  obtain ⟨room1, hroom1, hmem1⟩ := hasUser_elim st.reg r1 m h1
  rcases hlook2 : alookup r2 st.reg.rooms with _ | room2
  · -- r2 unknown to the registry: _getRoom creates it, then a fresh insert
    have hstep := addUser_unknown_room st.reg r2 m hr2ne hlook2
    have hlooknew : alookup r2 (st.reg.rooms ++ [(r2, [])]) = some [] := by
      rw [alookup_append_of_none r2 _ hlook2]
      simp [alookup]
    have hfresh := addUser_fresh ⟨st.reg.rooms ++ [(r2, [])]⟩ r2 m [] hm hr2ne
      hlooknew rfl
    have haddm : addUser st.reg r2 m =
        Except.ok
          (⟨setRoom (st.reg.rooms ++ [(r2, [])]) r2
              [(m, USER_COLORS.getD (0 % USER_COLORS.length) "")]⟩,
            USER_COLORS.getD (0 % USER_COLORS.length) "",
            [(m, USER_COLORS.getD (0 % USER_COLORS.length) "")]) := by
      rw [hstep]
      simpa using hfresh
    have hreg : (handleJoin st m (some r2)).reg =
        ⟨setRoom (st.reg.rooms ++ [(r2, [])]) r2
          [(m, USER_COLORS.getD (0 % USER_COLORS.length) "")]⟩ := by
      simp [handleJoin, hr2, haddm]
    constructor
    · rw [hreg]
      have hl1 : alookup r1
          (setRoom (st.reg.rooms ++ [(r2, [])]) r2
            [(m, USER_COLORS.getD (0 % USER_COLORS.length) "")]) =
          some room1 := by
        rw [alookup_setRoom_ne _ _ _ _ h12]
        exact alookup_append_of_some r1 _ hroom1
      exact hasUser_intro _ r1 m room1 hl1 hmem1
    · rw [hreg]
      have hl2 : alookup r2
          (setRoom (st.reg.rooms ++ [(r2, [])]) r2
            [(m, USER_COLORS.getD (0 % USER_COLORS.length) "")]) =
          some [(m, USER_COLORS.getD (0 % USER_COLORS.length) "")] :=
        alookup_setRoom_self _ _ _ (by simp [hlooknew])
      exact hasUser_intro _ r2 m _ hl2 (by simp [alookup])
  · rcases hmem2 : alookup m room2 with _ | c
    · -- r2 known, m absent there: fresh insert into room2
      have hfresh := addUser_fresh st.reg r2 m room2 hm hr2ne hlook2 hmem2
      have hreg : (handleJoin st m (some r2)).reg =
          ⟨setRoom st.reg.rooms r2
            (room2 ++ [(m, USER_COLORS.getD (room2.length % USER_COLORS.length) "")])⟩ := by
        simp [handleJoin, hr2, hfresh]
      constructor
      · rw [hreg]
        have hl1 : alookup r1
            (setRoom st.reg.rooms r2
              (room2 ++ [(m, USER_COLORS.getD (room2.length % USER_COLORS.length) "")])) =
            some room1 := by
          rw [alookup_setRoom_ne _ _ _ _ h12]
          exact hroom1
        exact hasUser_intro _ r1 m room1 hl1 hmem1
      · rw [hreg]
        have hl2 : alookup r2
            (setRoom st.reg.rooms r2
              (room2 ++ [(m, USER_COLORS.getD (room2.length % USER_COLORS.length) "")])) =
            some (room2 ++ [(m, USER_COLORS.getD (room2.length % USER_COLORS.length) "")]) :=
          alookup_setRoom_self _ _ _ (by simp [hlook2])
        have hfind : alookup m
            (room2 ++ [(m, USER_COLORS.getD (room2.length % USER_COLORS.length) "")]) =
            some (USER_COLORS.getD (room2.length % USER_COLORS.length) "") := by
          rw [alookup_append_of_none m _ hmem2]
          simp [alookup]
        exact hasUser_intro _ r2 m _ hl2 (by rw [hfind]; rfl)
    · -- r2 known and m already present: idempotent, registry unchanged
      have hex := addUser_existing st.reg r2 m room2 c hm hr2ne hlook2 hmem2
      have hreg : (handleJoin st m (some r2)).reg = st.reg := by
        simp [handleJoin, hr2, hex]
      rw [hreg]
      refine ⟨h1, ?_⟩
      exact hasUser_intro _ r2 m room2 hlook2 (by simp [hmem2])

/-- Concrete witness for the amended C9: "m", a member of room "a", joins
room "b"; afterwards it is registered in both rooms. -/
theorem join_keeps_stale_registration_witness :
    hasUser (handleJoin ⟨⟨[("a", [("m", "#FF5733")])]⟩, [("m", some "a")]⟩
      "m" (some "b")).reg "a" "m" = true ∧
    hasUser (handleJoin ⟨⟨[("a", [("m", "#FF5733")])]⟩, [("m", some "a")]⟩
      "m" (some "b")).reg "b" "m" = true :=
  join_keeps_stale_registration ⟨⟨[("a", [("m", "#FF5733")])]⟩, [("m", some "a")]⟩
    "m" "a" "b" (by decide) (by decide) (by decide) (by decide)

end Canvas
